import Mathlib

/-!
Verification of the player ingestion / query pipeline (`src/database.ts`).

The development shallowly embeds the TypeScript source:
* JavaScript numbers that stay integral are modelled as `ℤ`;
  values that may be `NaN` are modelled as `Option` (with `none` = `NaN`),
  since every arithmetic operation and `Math.floor`/`Math.max`/`Math.min`
  propagate `NaN`.
* Decimal values flowing through `parseFloat` are modelled exactly in `ℚ`
  (an idealisation of binary64 that is exact on all inputs considered here).
* Strings are Lean `String`s; the handful of JavaScript string operations
  used by the source (`trim`, one-shot `replace`, `includes`, truthiness)
  are reimplemented below on `List Char`.
* The SQLite table `players` (INTEGER PRIMARY KEY `id`) is modelled as a
  `List Player`; `INSERT OR REPLACE` replaces the row with the same id.
-/

namespace FC25

/-! ## Character and string helpers (JavaScript / SQLite semantics) -/

/-- ASCII lower-casing of a single character, as performed by SQLite's
default `LIKE` comparison (only `A`–`Z` fold; all other characters are
left untouched). -/
def asciiLower (c : Char) : Char :=
  if 'A' ≤ c ∧ c ≤ 'Z' then Char.ofNat (c.toNat + 32) else c

/-- `isPrefixList pat cs` : does `pat` occur at the head of `cs`? -/
def isPrefixList : List Char → List Char → Bool
  | [], _ => true
  | _ :: _, [] => false
  | a :: as, b :: bs => a == b && isPrefixList as bs

/-- `hasSubstr nd hay` : does `nd` occur contiguously anywhere in `hay`? -/
def hasSubstr (nd : List Char) : List Char → Bool
  | [] => isPrefixList nd []
  | c :: t => isPrefixList nd (c :: t) || hasSubstr nd t

/-- SQLite `LIKE` pattern matching (the default, ESCAPE-free form): `%`
matches any sequence of zero or more characters, `_` matches exactly one
character, and an ordinary character matches after ASCII case folding of
both sides (SQLite's `LIKE` is ASCII-case-insensitive by default, and the
repository never changes `case_sensitive_like`).  Recursion is on the
pattern; the `%` case tries every suffix of the field. -/
def likeMatchL : List Char → List Char → Bool
  | [], f => f.isEmpty
  | p :: ps, f =>
    if p = '%' then (f.tails).any (fun t => likeMatchL ps t)
    else
      match f with
      | [] => false
      | c :: fs =>
        (if p = '_' then true else asciiLower p == asciiLower c) && likeMatchL ps fs

/-- The WHERE clause's `field LIKE ?` with parameter `` `%${x}%` `` as
`searchPlayers` binds it: SQLite `LIKE` against the field, with the
criteria string laid between two `%` wildcards — so `%` and `_` characters
*inside* the criteria string are live wildcards too. -/
def likeContains (field pat : String) : Bool :=
  likeMatchL ('%' :: pat.toList ++ ['%']) field.toList

/-- ASCII-case-folded substring containment: the "substring anywhere in
the field" reading.  `likeContains` coincides with it exactly for criteria
strings free of the wildcard characters `%` and `_`
(`likeContains_wildcard_free`). -/
def foldContains (field pat : String) : Bool :=
  hasSubstr (pat.toList.map asciiLower) (field.toList.map asciiLower)

/-- Case-sensitive substring containment.  This follows the *spec's words*
("matches that string case-sensitively as a substring"), for comparison
with the SQLite behaviour `likeContains` actually implemented by the code. -/
def containsCaseSensitive (field pat : String) : Bool :=
  hasSubstr pat.toList field.toList

/-- Whitespace trimming at both ends (JavaScript `String.prototype.trim`). -/
def trimL (cs : List Char) : List Char :=
  ((cs.dropWhile Char.isWhitespace).reverse.dropWhile Char.isWhitespace).reverse

/-- JavaScript `String.prototype.replace` with a *string* pattern: only the
first occurrence of `pat` is replaced (here always by the empty string, the
only use in the source). -/
def replaceFirstL : List Char → List Char → List Char
  | [], _ => []
  | c :: t, pat =>
    if isPrefixList pat (c :: t) then (c :: t).drop pat.length
    else c :: replaceFirstL t pat

/-! ## JavaScript numeric parsing -/

/-- Value of a decimal digit list, most significant first. -/
def natOfDigits (ds : List Nat) : Nat := ds.foldl (fun a d => 10 * a + d) 0

def digitVal (c : Char) : Nat := c.toNat - 48

/-- JavaScript `parseInt(s)` (decimal): skip leading whitespace, optional
sign, then the longest digit prefix; `none` models `NaN` (no digit found).
The `0x` hexadecimal prefix, never present in the rating columns consumed
by the source, is not modelled. -/
def jsParseIntL (cs : List Char) : Option ℤ :=
  let cs := cs.dropWhile Char.isWhitespace
  let (sgn, cs) : ℤ × List Char :=
    match cs with
    | '-' :: t => (-1, t)
    | '+' :: t => (1, t)
    | _ => (1, cs)
  let ds := cs.takeWhile Char.isDigit
  if ds.isEmpty then none
  else some (sgn * (natOfDigits (ds.map digitVal) : ℤ))

/-- JavaScript `parseFloat(s)`: skip leading whitespace, optional sign,
longest match of `digits [. digits] [e/E [sign] digits]`; `none` models
`NaN` (no mantissa digit found).  The value is exact in `ℚ`; the literal
`"Infinity"`, never produced by the cleaned currency strings, is not
modelled. -/
def jsParseFloatL (cs : List Char) : Option ℚ :=
  let cs := cs.dropWhile Char.isWhitespace
  let (sgn, cs) : ℚ × List Char :=
    match cs with
    | '-' :: t => (-1, t)
    | '+' :: t => (1, t)
    | _ => (1, cs)
  let intDs := cs.takeWhile Char.isDigit
  let rest := cs.dropWhile Char.isDigit
  let (fracDs, rest') : List Char × List Char :=
    match rest with
    | '.' :: t => (t.takeWhile Char.isDigit, t.dropWhile Char.isDigit)
    | _ => ([], rest)
  if intDs.isEmpty && fracDs.isEmpty then none
  else
    let mant : ℚ := (natOfDigits (intDs.map digitVal) : ℚ) +
      (natOfDigits (fracDs.map digitVal) : ℚ) / (10 : ℚ) ^ fracDs.length
    let expo : ℤ :=
      match rest' with
      | e :: t =>
        if e == 'e' || e == 'E' then
          let (es, t') : ℤ × List Char :=
            match t with
            | '-' :: u => (-1, u)
            | '+' :: u => (1, u)
            | _ => (1, t)
          let eds := t'.takeWhile Char.isDigit
          if eds.isEmpty then 0 else es * (natOfDigits (eds.map digitVal) : ℤ)
        else 0
      | [] => 0
    some (sgn * mant * (10 : ℚ) ^ expo)

/-! ## CSVDataLoader field normalisers -/

/-- `CSVDataLoader.safeInt`: empty / single-space input yields the default;
otherwise `parseInt` of the trimmed string, with the default on `NaN`. -/
def safeInt (s : String) (d : ℤ) : ℤ :=
  if s = "" || s = " " then d
  else
    match jsParseIntL (trimL s.toList) with
    | none => d
    | some n => n

/-- `CSVDataLoader.parseCurrencyValue`.  Result `none` models `NaN`:
`parseFloat` never throws, so the source's `catch` branch is dead and
`Math.floor(NaN * k)` (`NaN`) is returned for unparsable non-empty input.
Note that `replace('€','')` and `replace(',','')` remove only the first
occurrence, and the `M`/`K` tests are `includes`, not suffix tests. -/
def parseCurrencyValue (value : String) : Option ℤ :=
  if value = "" then some 0
  else
    let clean := trimL (replaceFirstL (replaceFirstL value.toList ['€']) [','])
    if clean = [] || clean = ['-'] then some 0
    else if clean.contains 'M' then
      (jsParseFloatL (replaceFirstL clean ['M'])).map (fun q => ⌊q * 1000000⌋)
    else if clean.contains 'K' then
      (jsParseFloatL (replaceFirstL clean ['K'])).map (fun q => ⌊q * 1000⌋)
    else
      (jsParseFloatL clean).map (fun q => ⌊q⌋)

/-! ## Dates -/

/-- A calendar date as JavaScript exposes it through `getFullYear` /
`getMonth` / `getDate` (the month is kept 1-based here; only the relative
order of month/day pairs matters to the source). -/
structure SDate where
  year : ℤ
  month : ℤ
  day : ℤ
deriving DecidableEq, Repr

/-- Length of a month under the Gregorian leap-year rule, as ECMAScript
date arithmetic defines it. -/
def daysInMonth (y m : ℤ) : ℤ :=
  if m = 1 ∨ m = 3 ∨ m = 5 ∨ m = 7 ∨ m = 8 ∨ m = 10 ∨ m = 12 then 31
  else if m = 2 then
    if y % 4 = 0 ∧ (y % 100 ≠ 0 ∨ y % 400 = 0) then 29 else 28
  else 30

/-- `new Date(s)` on a date-only string.  ECMAScript specifies parsing for
ISO 8601 `YYYY-MM-DD` (the only format the dataset's date columns use) and
requires in-range fields, so an out-of-range day such as `"2000-02-31"` is
an Invalid Date; everything else is implementation-defined and modelled as
an invalid date (`none`). -/
def jsDateParse (s : String) : Option SDate :=
  match s.toList with
  | [y1, y2, y3, y4, '-', m1, m2, '-', d1, d2] =>
    if [y1, y2, y3, y4, m1, m2, d1, d2].all Char.isDigit then
      let y : ℤ := natOfDigits ([y1, y2, y3, y4].map digitVal)
      let m : ℤ := natOfDigits ([m1, m2].map digitVal)
      let d : ℤ := natOfDigits ([d1, d2].map digitVal)
      if 1 ≤ m ∧ m ≤ 12 ∧ 1 ≤ d ∧ d ≤ daysInMonth y m then some ⟨y, m, d⟩ else none
    else none
  | _ => none

/-- `CSVDataLoader.calculateAge`, relative to the current date `today`.
Result `none` models `NaN`: `new Date(bad)` never throws (so the `catch`
branch is dead) but yields an *Invalid Date* whose getters return `NaN`,
and `NaN` propagates through the subtractions, the comparisons (which are
then false) and `Math.max(16, Math.min(45, ·))`. -/
def calculateAge (today : SDate) (dobStr : String) : Option ℤ :=
  if dobStr = "" then some 25
  else
    match jsDateParse dobStr with
    | none => none
    | some dob =>
      some (max 16 (min 45 (today.year - dob.year -
        (if today.month < dob.month ∨ (today.month = dob.month ∧ today.day < dob.day)
         then 1 else 0))))

/-- `CSVDataLoader.parseDate`. -/
def parseDate (s : String) : Option SDate :=
  if s = "" || s = "nan" || s = "NaN" then none else jsDateParse s

/-! ## Positions -/

/-- The fixed 15-entry `Position` enum of `types.ts`. -/
inductive Position where
  | GK | CB | LB | RB | LWB | RWB | CDM | CM | CAM | LM | RM | LW | RW | CF | ST
deriving DecidableEq, Repr

/-- `CSVDataLoader.parsePosition`: first entry of the comma-separated list,
trimmed, looked up in the fixed table; anything unmatched (and the empty
input) falls back to `CM`. -/
def parsePosition (s : String) : Position :=
  if s = "" then Position.CM
  else
    match (trimL (s.toList.takeWhile (fun c => c ≠ ','))).asString with
    | "GK" => .GK
    | "CB" => .CB
    | "LB" => .LB
    | "RB" => .RB
    | "LWB" => .LWB
    | "RWB" => .RWB
    | "CDM" => .CDM
    | "CM" => .CM
    | "CAM" => .CAM
    | "LM" => .LM
    | "RM" => .RM
    | "LW" => .LW
    | "RW" => .RW
    | "CF" => .CF
    | "ST" => .ST
    | _ => .CM

/-! ## Records -/

/-- The six attribute sub-ratings of `types.ts`. -/
structure PlayerAttributes where
  pace : ℤ
  shooting : ℤ
  passing : ℤ
  dribbling : ℤ
  defending : ℤ
  physical : ℤ
deriving DecidableEq, Repr

/-- The all-zero "attributes unavailable" sentinel. -/
def zeroAttributes : PlayerAttributes := ⟨0, 0, 0, 0, 0, 0⟩

/-- A raw CSV row after header mapping (`row[header] = values[index] || ''`):
every consumed column is a string, absent cells are `""`. -/
structure RawRow where
  player_id : String := ""
  name : String := ""
  dob : String := ""
  country_name : String := ""
  club_name : String := ""
  club_league_name : String := ""
  positions : String := ""
  preferred_foot : String := ""
  overall_rating : String := ""
  potential : String := ""
  value : String := ""
  wage : String := ""
  release_clause : String := ""
  club_contract_valid_until : String := ""
deriving DecidableEq, Repr

/-- The record produced by `CSVDataLoader.parsePlayerFromRow`.  Fields fed
through `parseCurrencyValue` / `calculateAge` can carry `NaN`, hence
`Option ℤ`. -/
structure ParsedPlayer where
  id : ℤ
  name : String
  age : Option ℤ
  nationality : String
  club : Option String
  league : Option String
  position : Position
  preferredFoot : String
  overallRating : ℤ
  potential : ℤ
  marketValue : Option ℤ
  wage : Option ℤ
  releaseClause : Option ℤ
  attributes : PlayerAttributes
  contractExpiry : Option SDate
deriving DecidableEq, Repr

/-- `CSVDataLoader.parsePlayerFromRow`.  `randId` is the value of
`Math.floor(Math.random() * 1000000)`, the nondeterministic fallback
identifier, passed in as a parameter.  No operation in the body can throw,
so the `catch { return null }` branch is dead and a record is always
produced. -/
def parsePlayerFromRow (today : SDate) (row : RawRow) (randId : ℤ) : ParsedPlayer where
  id := safeInt row.player_id randId
  name := if row.name = "" then "Unknown Player" else row.name
  age := calculateAge today row.dob
  nationality := if row.country_name = "" then "Unknown" else row.country_name
  club := if row.club_name = "" then none else some row.club_name
  league := if row.club_league_name = "" then none else some row.club_league_name
  position := parsePosition row.positions
  preferredFoot := if row.preferred_foot = "" then "Right" else row.preferred_foot
  overallRating := min 99 (max 40 (safeInt row.overall_rating 75))
  potential := min 99 (max 40 (safeInt row.potential 75))
  marketValue := parseCurrencyValue row.value
  wage := parseCurrencyValue row.wage
  releaseClause := parseCurrencyValue row.release_clause
  attributes := zeroAttributes
  contractExpiry := parseDate row.club_contract_valid_until

/-! ## The record store (`players` table) -/

/-- A stored row of the `players` table (all `NOT NULL` columns are plain;
`club`/`league`/`contract_expiry` are nullable). -/
structure Player where
  id : ℤ
  name : String
  age : ℤ
  nationality : String
  club : Option String
  league : Option String
  position : Position
  preferredFoot : String
  overallRating : ℤ
  potential : ℤ
  marketValue : ℤ
  wage : ℤ
  releaseClause : ℤ
  attributes : PlayerAttributes
  contractExpiry : Option SDate
deriving DecidableEq, Repr

/-- `PlayerDatabase.addPlayer`: `INSERT OR REPLACE` keyed by the `INTEGER
PRIMARY KEY id` — the row with the same id (unique, by construction of the
store) is replaced in place; a fresh id is appended. -/
def upsert (p : Player) : List Player → List Player
  | [] => [p]
  | q :: rest => if q.id = p.id then p :: rest else q :: upsert p rest

/-- A batch load: upsert every record in order (the source's sequential
`addPlayer` loop). -/
def loadAll (rows : List Player) (store : List Player) : List Player :=
  rows.foldl (fun s p => upsert p s) store

/-! ## Search (`PlayerDatabase.searchPlayers`) -/

/-- The `SearchCriteria` object of `types.ts`; every field optional. -/
structure SearchCriteria where
  position : Option Position := none
  minOverall : Option ℤ := none
  maxAge : Option ℤ := none
  maxPrice : Option ℤ := none
  minPotential : Option ℤ := none
  nationality : Option String := none
  league : Option String := none
  club : Option String := none
deriving DecidableEq, Repr

/-- The WHERE clause `searchPlayers` assembles.  Each criterion is guarded
by JavaScript truthiness (`if (criteria.x)`): a numeric criterion equal to
`0` and a string criterion equal to `""` are skipped exactly like an absent
one.  String criteria become `field LIKE '%x%'`; a `NULL` field never
matches an active `LIKE`. -/
def matchesCriteria (c : SearchCriteria) (p : Player) : Bool :=
  (match c.position with
   | none => true
   | some pos => p.position = pos) &&
  (match c.minOverall with
   | none => true
   | some v => if v = 0 then true else v ≤ p.overallRating) &&
  (match c.maxAge with
   | none => true
   | some v => if v = 0 then true else p.age ≤ v) &&
  (match c.maxPrice with
   | none => true
   | some v => if v = 0 then true else p.marketValue ≤ v) &&
  (match c.minPotential with
   | none => true
   | some v => if v = 0 then true else v ≤ p.potential) &&
  (match c.nationality with
   | none => true
   | some s => if s = "" then true else likeContains p.nationality s) &&
  (match c.league with
   | none => true
   | some s =>
     if s = "" then true
     else match p.league with
          | none => false
          | some f => likeContains f s) &&
  (match c.club with
   | none => true
   | some s =>
     if s = "" then true
     else match p.club with
          | none => false
          | some f => likeContains f s)

/-- `ORDER BY overall_rating DESC, market_value DESC` as a Boolean total
preorder: `p` ranks no worse than `q`. -/
def rankLE (p q : Player) : Bool :=
  q.overallRating < p.overallRating ||
    (p.overallRating = q.overallRating && q.marketValue ≤ p.marketValue)

/-- `PlayerDatabase.searchPlayers`: filter by the assembled WHERE clause,
sort by the ORDER BY clause, apply `LIMIT limit` last. -/
def searchPlayers (store : List Player) (c : SearchCriteria) (limit : ℕ) : List Player :=
  (((store.filter (matchesCriteria c)).mergeSort rankLE).take limit)

/-! ## Statistics (`PlayerDatabase.getStats`) -/

/-- JavaScript `Math.round`: half-up rounding, `⌊x + 1/2⌋`. -/
def jsRound (q : ℚ) : ℤ := ⌊q + 1 / 2⌋

/-- The distinct positions present in the store: the `GROUP BY position`
groups. -/
def positionsIn (store : List Player) : List Position :=
  (store.map (fun p => p.position)).dedup

/-- One `GROUP BY position` group. -/
def groupFor (store : List Player) (pos : Position) : List Player :=
  store.filter (fun p => p.position = pos)

/-- SQL `AVG` of a per-player quantity over a group (exact, in `ℚ`). -/
def avgOf (f : Player → ℤ) (g : List Player) : ℚ :=
  ((g.map (fun p => (f p : ℚ))).sum) / (g.length : ℚ)

/-- The `DatabaseStats` snapshot of `types.ts`. -/
structure DatabaseStats where
  totalPlayers : ℕ
  averageRating : ℚ
  averageValue : ℤ
  averageAge : ℚ
  positionCounts : Position → Option ℕ

/-- The count-weighted recombination the source performs on the GROUP BY
rows: `rows.reduce((sum, row) => sum + row.avg_x * row.position_count, 0) /
totalPlayers`, where `totalPlayers` is the summed `position_count`. -/
def weightedAvg (f : Player → ℤ) (store : List Player) : ℚ :=
  ((positionsIn store).map (fun pos =>
      avgOf f (groupFor store pos) * ((groupFor store pos).length : ℚ))).sum
    / ((((positionsIn store).map (fun pos => (groupFor store pos).length)).sum : ℕ) : ℚ)

/-- `PlayerDatabase.getStats`: the GROUP BY rows carry per-group averages
and counts; the overall averages recombine them as the count-weighted mean
`weightedAvg`, then round (`averageRating`/`averageAge` to one decimal,
`averageValue` to an integer). -/
def getStats (store : List Player) : DatabaseStats where
  totalPlayers := ((positionsIn store).map (fun pos => (groupFor store pos).length)).sum
  averageRating := (jsRound (weightedAvg (fun p => p.overallRating) store * 10) : ℚ) / 10
  averageValue := jsRound (weightedAvg (fun p => p.marketValue) store)
  averageAge := (jsRound (weightedAvg (fun p => p.age) store * 10) : ℚ) / 10
  positionCounts := fun pos =>
    if pos ∈ positionsIn store then some (groupFor store pos).length else none

/-! ## Example data used by the concrete instances -/

/-- A store row with the fields the claims inspect; remaining columns are
fixed defaults. -/
def mkPlayer (id rating mval age : ℤ) (pos : Position) (nat : String) : Player :=
  ⟨id, "P", age, nat, none, none, pos, "Right", rating, rating, mval, 0, 0,
    zeroAttributes, none⟩

/-- Ten records: one position group of 2 with rating 90, one of 8 with
rating 70 (the spec's weighted-aggregation example). -/
def statsExample : List Player :=
  [mkPlayer 1 90 0 25 .ST "A", mkPlayer 2 90 0 25 .ST "A",
   mkPlayer 3 70 0 25 .CM "A", mkPlayer 4 70 0 25 .CM "A",
   mkPlayer 5 70 0 25 .CM "A", mkPlayer 6 70 0 25 .CM "A",
   mkPlayer 7 70 0 25 .CM "A", mkPlayer 8 70 0 25 .CM "A",
   mkPlayer 9 70 0 25 .CM "A", mkPlayer 10 70 0 25 .CM "A"]

/-- How one upsert changes the stored key list: an existing key list is
unchanged, a fresh key is appended. -/
def idInsert (ks : List ℤ) (i : ℤ) : List ℤ :=
  if i ∈ ks then ks else ks ++ [i]

/-- The ranking of the ORDER BY clause, as a proposition. -/
def rankedBefore (p q : Player) : Prop :=
  q.overallRating < p.overallRating ∨
    (p.overallRating = q.overallRating ∧ q.marketValue ≤ p.marketValue)

set_option allowUnsafeReducibility true

attribute [local semireducible] Rat.mul Rat.inv Rat.add Rat.sub Rat.div Rat.neg

/-! ## Helper lemmas about LIKE matching -/

theorem any_congr {α : Type} {f g : α → Bool} :
    ∀ {l : List α}, (∀ a ∈ l, f a = g a) → l.any f = l.any g := by
  intro l
  induction l with
  | nil => intro _; rfl
  | cons a t ih =>
    intro h
    simp only [List.any_cons, h a (List.mem_cons_self a t),
      ih (fun b hb => h b (List.mem_cons_of_mem a hb))]

theorem hasSubstr_eq_any_tails (nd : List Char) :
    ∀ hay : List Char,
      hasSubstr nd hay = (hay.tails).any (fun t => isPrefixList nd t) := by
  intro hay
  induction hay with
  | nil => simp [hasSubstr]
  | cons c t ih => simp [hasSubstr, ih]

theorem tails_map_fold (g : Char → Char) :
    ∀ l : List Char, (l.map g).tails = l.tails.map (List.map g) := by
  intro l
  induction l with
  | nil => simp
  | cons a t ih => simp [ih]

theorem likeMatch_append_percent :
    ∀ pat : List Char, (∀ c ∈ pat, ¬ c = '%' ∧ ¬ c = '_') →
      ∀ g : List Char,
        likeMatchL (pat ++ ['%']) g
          = isPrefixList (pat.map asciiLower) (g.map asciiLower) := by
  intro pat
  induction pat with
  | nil =>
    intro _ g
    have h0 : ([] : List Char) ∈ g.tails := by
      rw [List.mem_tails]
      exact List.nil_suffix
    simp only [List.nil_append, likeMatchL, if_pos, List.map_nil, isPrefixList]
    rw [List.any_eq_true]
    exact ⟨[], h0, rfl⟩
  | cons p ps ih =>
    intro hw g
    obtain ⟨hp1, hp2⟩ := hw p (List.mem_cons_self p ps)
    have ihw : ∀ c ∈ ps, ¬ c = '%' ∧ ¬ c = '_' :=
      fun c hc => hw c (List.mem_cons_of_mem p hc)
    cases g with
    | nil => simp [likeMatchL, hp1, isPrefixList]
    | cons c fs => simp [likeMatchL, hp1, hp2, isPrefixList, ih ihw fs]

theorem likeContains_wildcard_free (field pat : String)
    (hw : ∀ c ∈ pat.toList, ¬ c = '%' ∧ ¬ c = '_') :
    likeContains field pat = foldContains field pat := by
  rw [likeContains, foldContains, hasSubstr_eq_any_tails, tails_map_fold, List.any_map]
  simp only [likeMatchL, if_pos, Function.comp]
  exact any_congr (fun t _ => likeMatch_append_percent pat.toList hw t)

/-! ## Helper lemmas about the search pipeline -/

theorem rankLE_iff (p q : Player) : rankLE p q = true ↔ rankedBefore p q := by
  simp [rankLE, rankedBefore]

theorem rankLE_total (p q : Player) : rankLE p q || rankLE q p := by
  simp only [Bool.or_eq_true, rankLE_iff, rankedBefore]
  omega

theorem rankLE_trans (p q r : Player) :
    rankLE p q → rankLE q r → rankLE p r := by
  simp only [rankLE_iff, rankedBefore]
  omega

theorem searchPlayers_eq_take (store : List Player) (c : SearchCriteria) (limit : ℕ) :
    searchPlayers store c limit = (searchPlayers store c store.length).take limit := by
  have h : ((store.filter (matchesCriteria c)).mergeSort rankLE).length ≤ store.length := by
    rw [List.length_mergeSort]
    exact store.length_filter_le _
  unfold searchPlayers
  rw [List.take_of_length_le h]

theorem searchPlayers_full_perm (store : List Player) (c : SearchCriteria) :
    (searchPlayers store c store.length).Perm (store.filter (matchesCriteria c)) := by
  have h : ((store.filter (matchesCriteria c)).mergeSort rankLE).length ≤ store.length := by
    rw [List.length_mergeSort]
    exact store.length_filter_le _
  unfold searchPlayers
  rw [List.take_of_length_le h]
  exact List.mergeSort_perm _ _

theorem searchPlayers_pairwise (store : List Player) (c : SearchCriteria) (limit : ℕ) :
    (searchPlayers store c limit).Pairwise rankedBefore := by
  unfold searchPlayers
  refine ((List.sorted_mergeSort rankLE_trans rankLE_total
    (store.filter (matchesCriteria c))).sublist (List.take_sublist _ _)).imp ?_
  exact fun h => (rankLE_iff _ _).mp h

theorem mem_searchPlayers_full (store : List Player) (c : SearchCriteria) (p : Player) :
    p ∈ searchPlayers store c store.length ↔
      p ∈ store ∧ matchesCriteria c p = true := by
  rw [(searchPlayers_full_perm store c).mem_iff, List.mem_filter]

theorem searchPlayers_singleton (p : Player) (c : SearchCriteria) (limit : ℕ)
    (h : 1 ≤ limit) :
    searchPlayers [p] c limit = if matchesCriteria c p then [p] else [] := by
  unfold searchPlayers
  by_cases hm : matchesCriteria c p
  · obtain ⟨n, rfl⟩ : ∃ n, limit = n + 1 := ⟨limit - 1, by omega⟩
    simp [hm]
  · simp [hm]

/-! ## Helper lemmas about the record store -/

theorem upsert_upsert (p : Player) (s : List Player) :
    upsert p (upsert p s) = upsert p s := by
  induction s with
  | nil => simp [upsert]
  | cons q rest ih =>
    by_cases h : q.id = p.id
    · simp [upsert, h]
    · simp [upsert, h, ih]

theorem map_id_upsert (p : Player) (s : List Player) :
    (upsert p s).map Player.id = idInsert (s.map Player.id) p.id := by
  induction s with
  | nil => simp [upsert, idInsert]
  | cons q rest ih =>
    by_cases h : q.id = p.id
    · simp [upsert, idInsert, h]
    · have h' : ¬ p.id = q.id := fun e => h e.symm
      by_cases hm : p.id ∈ rest.map Player.id
      · simp [upsert, idInsert, h, ih, hm, h']
      · simp [upsert, idInsert, h, ih, hm, h']

theorem find_upsert (p : Player) (s : List Player) :
    (upsert p s).find? (fun q => q.id == p.id) = some p := by
  induction s with
  | nil => simp [upsert]
  | cons q rest ih =>
    by_cases h : q.id = p.id
    · simp [upsert, h]
    · simp [upsert, h, ih]

theorem map_id_loadAll (rows : List Player) :
    ∀ s : List Player,
      (loadAll rows s).map Player.id =
        (rows.map Player.id).foldl idInsert (s.map Player.id) := by
  induction rows with
  | nil => intro s; simp [loadAll]
  | cons r rest ih =>
    intro s
    calc (loadAll (r :: rest) s).map Player.id
        = (loadAll rest (upsert r s)).map Player.id := by simp [loadAll]
      _ = (rest.map Player.id).foldl idInsert ((upsert r s).map Player.id) := ih _
      _ = ((r :: rest).map Player.id).foldl idInsert (s.map Player.id) := by
          rw [map_id_upsert]
          simp

theorem mem_foldl_idInsert (j : ℤ) :
    ∀ (ids ks : List ℤ), j ∈ ids.foldl idInsert ks ↔ j ∈ ks ∨ j ∈ ids := by
  intro ids
  induction ids with
  | nil => intro ks; simp
  | cons i rest ih =>
    intro ks
    rw [List.foldl_cons, ih]
    by_cases hm : i ∈ ks
    · simp only [idInsert, if_pos hm, List.mem_cons]
      constructor
      · rintro (h | h)
        · exact Or.inl h
        · exact Or.inr (Or.inr h)
      · rintro (h | h | h)
        · exact Or.inl h
        · exact Or.inl (h ▸ hm)
        · exact Or.inr h
    · simp only [idInsert, if_neg hm, List.mem_append, List.mem_singleton, List.mem_cons]
      tauto

theorem nodup_foldl_idInsert :
    ∀ (ids ks : List ℤ), ks.Nodup → (ids.foldl idInsert ks).Nodup := by
  intro ids
  induction ids with
  | nil => intro ks h; simpa using h
  | cons i rest ih =>
    intro ks h
    rw [List.foldl_cons]
    refine ih _ ?_
    by_cases hm : i ∈ ks
    · simpa [idInsert, hm] using h
    · simp [idInsert, hm, List.nodup_append, h]

theorem foldl_idInsert_of_subset :
    ∀ (ids ks : List ℤ), (∀ i ∈ ids, i ∈ ks) → ids.foldl idInsert ks = ks := by
  intro ids
  induction ids with
  | nil => intro ks _; rfl
  | cons i rest ih =>
    intro ks h
    rw [List.foldl_cons, idInsert, if_pos (h i (List.mem_cons_self i rest))]
    exact ih ks (fun j hj => h j (List.mem_cons_of_mem i hj))

theorem length_loadAll_nil (rows : List Player) :
    (loadAll rows []).length = (rows.map Player.id).toFinset.card := by
  have hkeys := map_id_loadAll rows []
  simp only [List.map_nil] at hkeys
  have hnd : ((rows.map Player.id).foldl idInsert []).Nodup :=
    nodup_foldl_idInsert _ [] List.nodup_nil
  have hext : ((rows.map Player.id).foldl idInsert []).toFinset =
      (rows.map Player.id).toFinset := by
    ext j
    simp [List.mem_toFinset, mem_foldl_idInsert]
  calc (loadAll rows []).length
      = ((loadAll rows []).map Player.id).length := (List.length_map _ _).symm
    _ = ((rows.map Player.id).foldl idInsert []).length := by rw [hkeys]
    _ = ((rows.map Player.id).foldl idInsert []).toFinset.card :=
        (List.toFinset_card_of_nodup hnd).symm
    _ = (rows.map Player.id).toFinset.card := by rw [hext]

theorem length_loadAll_twice (rows : List Player) :
    (loadAll rows (loadAll rows [])).length = (loadAll rows []).length := by
  have h1 := map_id_loadAll rows (loadAll rows [])
  have h2 : (rows.map Player.id).foldl idInsert ((loadAll rows []).map Player.id) =
      (loadAll rows []).map Player.id := by
    refine foldl_idInsert_of_subset _ _ (fun i hi => ?_)
    rw [map_id_loadAll rows []]
    simp only [List.map_nil]
    exact (mem_foldl_idInsert i _ _).mpr (Or.inr hi)
  calc (loadAll rows (loadAll rows [])).length
      = ((loadAll rows (loadAll rows [])).map Player.id).length :=
        (List.length_map _ _).symm
    _ = ((loadAll rows []).map Player.id).length := by rw [h1, h2]
    _ = (loadAll rows []).length := List.length_map _ _

/-! ## Helper lemmas about grouped aggregation -/

theorem sum_ones {α : Type} (l : List α) : (l.map (fun _ => (1 : ℕ))).sum = l.length := by
  induction l with
  | nil => rfl
  | cons a t ih => simp [ih, Nat.add_comm]

theorem sum_map_filter_add_filter_not {α M : Type} [AddCommMonoid M]
    (f : α → M) (p : α → Bool) (l : List α) :
    ((l.filter p).map f).sum + ((l.filter (fun a => !p a)).map f).sum = (l.map f).sum := by
  induction l with
  | nil => simp
  | cons a t ih =>
    by_cases h : p a
    · simp only [List.filter_cons, h, if_pos, Bool.not_true, Bool.false_eq_true,
        if_neg, List.map_cons, List.sum_cons, ite_false, ite_true]
      rw [add_assoc, ih]
    · simp only [List.filter_cons, h, Bool.not_false, List.map_cons, List.sum_cons,
        ite_false, ite_true, Bool.false_eq_true]
      rw [add_left_comm, ih]

theorem sum_map_partition {α κ M : Type} [DecidableEq κ] [AddCommMonoid M]
    (key : α → κ) (f : α → M) :
    ∀ ks : List κ, ks.Nodup → ∀ l : List α, (∀ a ∈ l, key a ∈ ks) →
      (ks.map (fun k => ((l.filter (fun a => key a = k)).map f).sum)).sum
        = (l.map f).sum := by
  intro ks
  induction ks with
  | nil =>
    intro _ l hcov
    cases l with
    | nil => simp
    | cons a t => exact absurd (hcov a (List.mem_cons_self a t)) (List.not_mem_nil _)
  | cons k ks ih =>
    intro hnd l hcov
    have hknotin : k ∉ ks := (List.nodup_cons.mp hnd).1
    have hndtail : ks.Nodup := (List.nodup_cons.mp hnd).2
    have hcongr : ∀ j ∈ ks,
        l.filter (fun a => key a = j)
          = (l.filter (fun a => !(decide (key a = k)))).filter (fun a => key a = j) := by
      intro j hj
      have hjk : ¬ j = k := fun e => hknotin (e ▸ hj)
      rw [List.filter_filter]
      refine List.filter_congr (fun a _ => ?_)
      by_cases hkj : key a = j
      · simp [hkj, hjk]
      · simp [hkj]
    have hcov2 : ∀ a ∈ l.filter (fun a => !(decide (key a = k))), key a ∈ ks := by
      intro a ha
      have hal : a ∈ l := List.mem_of_mem_filter ha
      have hne : ¬ key a = k := by simpa using List.of_mem_filter ha
      have := hcov a hal
      rw [List.mem_cons] at this
      exact this.resolve_left hne
    have hmapeq : ks.map (fun j => ((l.filter (fun a => key a = j)).map f).sum)
        = ks.map (fun j =>
            (((l.filter (fun a => !(decide (key a = k)))).filter
              (fun a => key a = j)).map f).sum) :=
      List.map_congr_left (fun j hj => by rw [hcongr j hj])
    rw [List.map_cons, List.sum_cons, hmapeq, ih hndtail _ hcov2]
    exact sum_map_filter_add_filter_not f (fun a => key a = k) l

theorem mem_positionsIn {store : List Player} {pos : Position}
    (p : Player) (hp : p ∈ store) (hpos : p.position = pos) : pos ∈ positionsIn store := by
  rw [positionsIn, List.mem_dedup]
  exact hpos ▸ List.mem_map_of_mem (fun q => q.position) hp

theorem groupFor_ne_nil {store : List Player} {pos : Position}
    (h : pos ∈ positionsIn store) : groupFor store pos ≠ [] := by
  rw [positionsIn, List.mem_dedup] at h
  obtain ⟨p, hp, hpos⟩ := List.mem_map.mp h
  exact List.ne_nil_of_mem (List.mem_filter.mpr ⟨hp, by simp [hpos]⟩)

theorem totalPlayers_eq_length (store : List Player) :
    ((positionsIn store).map (fun pos => (groupFor store pos).length)).sum
      = store.length := by
  have h := sum_map_partition (fun p : Player => p.position) (fun _ => (1 : ℕ))
    (positionsIn store) (List.nodup_dedup _) store
    (fun a ha => mem_positionsIn a ha rfl)
  rw [sum_ones] at h
  rw [← h]
  refine congrArg List.sum (List.map_congr_left (fun pos _ => ?_))
  rw [groupFor, sum_ones]

theorem weighted_group_sum (f : Player → ℤ) (store : List Player) :
    ((positionsIn store).map (fun pos =>
        avgOf f (groupFor store pos) * ((groupFor store pos).length : ℚ))).sum
      = (store.map (fun p => (f p : ℚ))).sum := by
  have h := sum_map_partition (fun p : Player => p.position) (fun p => (f p : ℚ))
    (positionsIn store) (List.nodup_dedup _) store
    (fun a ha => mem_positionsIn a ha rfl)
  rw [← h]
  refine congrArg List.sum (List.map_congr_left (fun pos hpos => ?_))
  have hne : groupFor store pos ≠ [] := groupFor_ne_nil hpos
  have hlen : ((groupFor store pos).length : ℚ) ≠ 0 := by
    have := List.length_pos.mpr hne
    exact Nat.cast_ne_zero.mpr (by omega)
  rw [avgOf, div_mul_cancel₀ _ hlen, groupFor]

theorem weightedAvg_eq (f : Player → ℤ) (store : List Player) :
    weightedAvg f store = (store.map (fun p => (f p : ℚ))).sum / (store.length : ℚ) := by
  rw [weightedAvg, weighted_group_sum, totalPlayers_eq_length]

/-! ## Claim theorems -/

/-- C2: for every stored record set, criteria and cap, `searchPlayers`
returns exactly the records satisfying the AND of all present criteria
(uncapped, the result is a permutation of the matching records; a criterion
is "present" when it passes the code's truthiness guard, cf. C10, and with
no criteria present nothing is filtered), ordered by overall rating
descending with market value descending as tie-break, and the cap truncates
the sorted result, so the returned list is the top-N under that order. -/
theorem searchPlayers_filter_sort_cap :
    (∀ (store : List Player) (c : SearchCriteria),
      (searchPlayers store c store.length).Perm (store.filter (matchesCriteria c))) ∧
    (∀ (store : List Player) (c : SearchCriteria) (limit : ℕ),
      (searchPlayers store c limit).Pairwise rankedBefore) ∧
    (∀ (store : List Player) (c : SearchCriteria) (limit : ℕ),
      searchPlayers store c limit = (searchPlayers store c store.length).take limit) ∧
    (∀ (store : List Player) (p : Player),
      matchesCriteria {} p = true ∧ (searchPlayers store {} store.length).Perm store) :=
  ⟨searchPlayers_full_perm, searchPlayers_pairwise, searchPlayers_eq_take,
    fun store p =>
      ⟨rfl, (searchPlayers_full_perm store {}).trans
        (List.Perm.of_eq (List.filter_eq_self.mpr (fun _ _ => rfl)))⟩⟩

/-- C1: `parseCurrencyValue` on the spec's examples, and on unparsable
non-empty input.  The five documented examples hold; but an unparsable
string such as `"abc"` yields `NaN` (`none`), not `0`: `parseFloat` never
throws, so the `catch { return 0 }` branch is dead and `Math.floor(NaN)`
(`NaN`) escapes.  The last conjunct records that only the *first* thousands
separator is stripped (`"1,234,567"` parses as `1234`, not `1234567`). -/
theorem parseCurrencyValue_examples_vs_nan :
    parseCurrencyValue "€160.0M" = some 160000000 ∧
    parseCurrencyValue "500K" = some 500000 ∧
    parseCurrencyValue "" = some 0 ∧
    parseCurrencyValue "-" = some 0 ∧
    parseCurrencyValue "25000000" = some 25000000 ∧
    parseCurrencyValue "abc" = none ∧
    parseCurrencyValue "1,234,567" = some 1234 := by
  refine ⟨by decide, by decide, by decide, by decide, by decide, by decide, by decide⟩

/-- C5: `calculateAge` follows the year-difference-with-birthday-correction
formula, clamped to [16, 45], and defaults to 25 on *absent* input — but a
non-empty unparsable date-of-birth yields `NaN` (`none`), not 25: `new
Date` never throws, so the `catch { return 25 }` branch is dead and the
Invalid Date's `NaN` getters propagate through the arithmetic and through
`Math.max`/`Math.min`. -/
theorem calculateAge_formula_and_invalid_nan :
    calculateAge ⟨2025, 6, 1⟩ "2000-06-15" = some 24 ∧
    calculateAge ⟨2025, 6, 15⟩ "2000-06-15" = some 25 ∧
    calculateAge ⟨2025, 1, 1⟩ "2015-06-15" = some 16 ∧
    calculateAge ⟨2025, 1, 1⟩ "1950-01-01" = some 45 ∧
    calculateAge ⟨2025, 10, 11⟩ "" = some 25 ∧
    calculateAge ⟨2025, 10, 11⟩ "garbage" = none := by
  refine ⟨by decide, by decide, by decide, by decide, by decide, by decide⟩

/-- C6: after normalization, `overallRating` and `potential` always lie in
[40, 99] (5 clamps to 40, 150 to 99, absent input defaults to 75) — but the
age invariant [16, 45] fails on a row whose date-of-birth is non-empty and
unparsable: the record is still produced and carries age `NaN` (`none`),
which is outside every range (see C5). -/
theorem parsePlayerFromRow_range_invariants :
    (∀ (today : SDate) (row : RawRow) (randId : ℤ),
      40 ≤ (parsePlayerFromRow today row randId).overallRating ∧
      (parsePlayerFromRow today row randId).overallRating ≤ 99 ∧
      40 ≤ (parsePlayerFromRow today row randId).potential ∧
      (parsePlayerFromRow today row randId).potential ≤ 99) ∧
    (parsePlayerFromRow ⟨2025, 10, 11⟩ { overall_rating := "5" } 0).overallRating = 40 ∧
    (parsePlayerFromRow ⟨2025, 10, 11⟩ { overall_rating := "150" } 0).overallRating = 99 ∧
    (parsePlayerFromRow ⟨2025, 10, 11⟩ {} 0).overallRating = 75 ∧
    (parsePlayerFromRow ⟨2025, 10, 11⟩ { dob := "garbage" } 0).age = none := by
  refine ⟨fun today row randId => ?_, by decide, by decide, by decide, by decide⟩
  simp only [parsePlayerFromRow]
  omega

/-- C9: the normalizer hard-codes the all-zero sentinel for the six
attribute sub-ratings on every row it accepts, regardless of the row's
contents. -/
theorem parsePlayerFromRow_attributes_zero_sentinel :
    ∀ (today : SDate) (row : RawRow) (randId : ℤ),
      (parsePlayerFromRow today row randId).attributes = zeroAttributes ∧
      (parsePlayerFromRow today row randId).attributes.pace = 0 ∧
      (parsePlayerFromRow today row randId).attributes.shooting = 0 ∧
      (parsePlayerFromRow today row randId).attributes.passing = 0 ∧
      (parsePlayerFromRow today row randId).attributes.dribbling = 0 ∧
      (parsePlayerFromRow today row randId).attributes.defending = 0 ∧
      (parsePlayerFromRow today row randId).attributes.physical = 0 :=
  fun _ _ _ => ⟨rfl, rfl, rfl, rfl, rfl, rfl, rfl⟩

/-- C3: although `getStats` groups by position and recombines per-group
averages, the recombination is the count-weighted mean, so for every
nonempty store the reported `totalPlayers` is the record count and each
reported average is the rounding of the true global mean; in particular on
the 2-at-90 / 8-at-70 example the average rating is 74, not 80. -/
theorem getStats_count_weighted_mean :
    (∀ store : List Player, store ≠ [] →
      (getStats store).totalPlayers = store.length ∧
      (getStats store).averageRating =
        (jsRound ((store.map (fun p => (p.overallRating : ℚ))).sum
          / (store.length : ℚ) * 10) : ℚ) / 10 ∧
      (getStats store).averageValue =
        jsRound ((store.map (fun p => (p.marketValue : ℚ))).sum / (store.length : ℚ)) ∧
      (getStats store).averageAge =
        (jsRound ((store.map (fun p => (p.age : ℚ))).sum
          / (store.length : ℚ) * 10) : ℚ) / 10) ∧
    (getStats statsExample).averageRating = 74 ∧
    (getStats statsExample).totalPlayers = 10 := by
  refine ⟨fun store _ => ?_, by decide, by decide⟩
  refine ⟨totalPlayers_eq_length store, ?_, ?_, ?_⟩ <;>
    simp only [getStats, weightedAvg_eq]

/-- Witness for C3: the hypotheses of the universal part hold at the
concrete ten-record example store. -/
theorem getStats_count_weighted_mean_witness :
    statsExample ≠ [] ∧ (getStats statsExample).totalPlayers = statsExample.length :=
  ⟨by decide, (getStats_count_weighted_mean.1 statsExample (by decide)).1⟩

/-- C4: upsert is idempotent and keyed by `id`: upserting the same record
twice equals upserting it once; an upsert never duplicates a key (the key
list is unchanged when the id exists, extended by the new id otherwise) and
afterwards the stored record under that id is exactly the upserted one; and
loading a dataset twice yields as many records as there are distinct
identifiers in it, not double. -/
theorem upsert_idempotent_keyed_by_id :
    (∀ (p : Player) (s : List Player), upsert p (upsert p s) = upsert p s) ∧
    (∀ (p : Player) (s : List Player),
      (upsert p s).map Player.id =
        if p.id ∈ s.map Player.id then s.map Player.id
        else s.map Player.id ++ [p.id]) ∧
    (∀ (p : Player) (s : List Player),
      (upsert p s).find? (fun q => q.id == p.id) = some p) ∧
    (∀ rows : List Player,
      (loadAll rows []).length = (rows.map Player.id).toFinset.card ∧
      (loadAll rows (loadAll rows [])).length = (rows.map Player.id).toFinset.card) :=
  ⟨upsert_upsert,
   fun p s => (map_id_upsert p s).trans (by rw [idInsert]),
   find_upsert,
   fun rows =>
    ⟨length_loadAll_nil rows,
     (length_loadAll_twice rows).trans (length_loadAll_nil rows)⟩⟩

/-- C7 counterexample: the search is not case-sensitive.  A store whose
only record has nationality `"BRAZIL"` is returned for the criterion
`"brazil"`, although `"brazil"` is not a case-sensitive substring of
`"BRAZIL"` — SQLite's default `LIKE` folds ASCII case. -/
theorem searchPlayers_case_sensitive_cex :
    searchPlayers [mkPlayer 1 90 100 20 .ST "BRAZIL"] { nationality := some "brazil" } 1
      = [mkPlayer 1 90 100 20 .ST "BRAZIL"] ∧
    containsCaseSensitive "BRAZIL" "brazil" = false := by
  constructor
  · rw [searchPlayers_singleton _ _ _ (Nat.le_refl 1)]
    decide
  · decide

/-- C7 (amended): a nationality / league / club criterion matches the
field by SQLite's default `LIKE` against the pattern `'%' + s + '%'`:
ASCII-case-insensitively, with `%`/`_` inside the criteria string acting as
live wildcards; for a criteria string free of the wildcard characters this
is exactly substring containment (under ASCII case folding) anywhere in the
field — not exact equality and not case-sensitive.  An absent (`NULL`)
league/club field never matches an active criterion. -/
theorem searchPlayers_substring_case_insensitive :
    (∀ (store : List Player) (s : String) (p : Player),
      p ∈ searchPlayers store { nationality := some s } store.length ↔
        p ∈ store ∧ (s = "" ∨ likeContains p.nationality s = true)) ∧
    (∀ (store : List Player) (s : String) (p : Player),
      p ∈ searchPlayers store { league := some s } store.length ↔
        p ∈ store ∧ (s = "" ∨ ∃ f, p.league = some f ∧ likeContains f s = true)) ∧
    (∀ (store : List Player) (s : String) (p : Player),
      p ∈ searchPlayers store { club := some s } store.length ↔
        p ∈ store ∧ (s = "" ∨ ∃ f, p.club = some f ∧ likeContains f s = true)) ∧
    (∀ field pat : String, (∀ c ∈ pat.toList, ¬ c = '%' ∧ ¬ c = '_') →
      likeContains field pat = foldContains field pat) ∧
    likeContains "abc" "a_c" = true ∧
    foldContains "abc" "a_c" = false ∧
    searchPlayers [mkPlayer 2 90 100 20 .ST "Brazil"] { nationality := some "RAZI" } 1
      = [mkPlayer 2 90 100 20 .ST "Brazil"] ∧
    containsCaseSensitive "Brazil" "RAZI" = false ∧
    "Brazil" ≠ "RAZI" := by
  refine ⟨?_, ?_, ?_, likeContains_wildcard_free, by decide, by decide, ?_,
    by decide, by decide⟩
  · intro store s p
    by_cases hs : s = ""
    · simp [mem_searchPlayers_full, matchesCriteria, hs]
    · simp [mem_searchPlayers_full, matchesCriteria, hs]
  · intro store s p
    by_cases hs : s = ""
    · simp [mem_searchPlayers_full, matchesCriteria, hs]
    · cases hl : p.league with
      | none => simp [mem_searchPlayers_full, matchesCriteria, hs, hl]
      | some f => simp [mem_searchPlayers_full, matchesCriteria, hs, hl]
  · intro store s p
    by_cases hs : s = ""
    · simp [mem_searchPlayers_full, matchesCriteria, hs]
    · cases hl : p.club with
      | none => simp [mem_searchPlayers_full, matchesCriteria, hs, hl]
      | some f => simp [mem_searchPlayers_full, matchesCriteria, hs, hl]
  · rw [searchPlayers_singleton _ _ _ (Nat.le_refl 1)]
    decide

/-- Witness for C7's amended theorem: the wildcard-free hypothesis is
discharged at the concrete criteria string `"brazil"`, where the `LIKE`
evaluation coincides with folded substring containment and matches the
field `"BRAZIL"`. -/
theorem searchPlayers_substring_case_insensitive_witness :
    likeContains "BRAZIL" "brazil" = foldContains "BRAZIL" "brazil" ∧
    likeContains "BRAZIL" "brazil" = true :=
  ⟨searchPlayers_substring_case_insensitive.2.2.2.1 "BRAZIL" "brazil" (by decide),
   by decide⟩

/-- C8 counterexample: a negative `maxPrice` is *not* treated as "no
constraint": with it, a store whose only record has market value 1000000
yields an empty result, while the same search without the criterion returns
the record.  (`-1` is truthy in JavaScript, so the guard admits it and the
clause `market_value <= -1` is emitted.) -/
theorem searchPlayers_negative_maxPrice_cex :
    searchPlayers [mkPlayer 3 90 1000000 20 .ST "Brazil"] { maxPrice := some (-1) } 1
      = [] ∧
    searchPlayers [mkPlayer 3 90 1000000 20 .ST "Brazil"] {} 1
      = [mkPlayer 3 90 1000000 20 .ST "Brazil"] := by
  constructor
  · rw [searchPlayers_singleton _ _ _ (Nat.le_refl 1)]
    decide
  · rw [searchPlayers_singleton _ _ _ (Nat.le_refl 1)]
    decide

/-- C8 (amended): only a `maxPrice` of `0` (or an absent one) imposes no
constraint — the truthiness guard skips exactly the zero value; any nonzero
`maxPrice`, negative ones included, is applied literally as an upper bound
on market value (and a negative bound excludes every record with
non-negative market value), not an error. -/
theorem searchPlayers_maxPrice_zero_vs_negative :
    (∀ (store : List Player) (c : SearchCriteria) (limit : ℕ),
      searchPlayers store { c with maxPrice := some 0 } limit
        = searchPlayers store { c with maxPrice := none } limit) ∧
    (∀ (store : List Player) (n : ℤ) (limit : ℕ) (p : Player),
      n ≠ 0 → p ∈ searchPlayers store { maxPrice := some n } limit →
        p.marketValue ≤ n) := by
  constructor
  · intro store c limit
    obtain ⟨pos, mo, ma, mp, mpo, na, lg, cb⟩ := c
    unfold searchPlayers
    rw [List.filter_congr (fun q _ => ?_)]
    simp [matchesCriteria]
  · intro store n limit p hn hp
    unfold searchPlayers at hp
    have h1 := List.mem_of_mem_take hp
    rw [List.mem_mergeSort] at h1
    have h2 := List.of_mem_filter h1
    simpa [matchesCriteria, hn] using h2

/-- Witness for C8's amended theorem: at a concrete store holding a record
with market value −2 and criterion `maxPrice = −1`, the hypotheses hold and
the bound follows. -/
theorem searchPlayers_maxPrice_zero_vs_negative_witness :
    mkPlayer 4 90 (-2) 20 .ST "X" ∈
      searchPlayers [mkPlayer 4 90 (-2) 20 .ST "X"] { maxPrice := some (-1) } 1 ∧
    (mkPlayer 4 90 (-2) 20 .ST "X").marketValue ≤ -1 := by
  have hmem : mkPlayer 4 90 (-2) 20 .ST "X" ∈
      searchPlayers [mkPlayer 4 90 (-2) 20 .ST "X"] { maxPrice := some (-1) } 1 := by
    rw [searchPlayers_singleton _ _ _ (Nat.le_refl 1)]
    decide
  exact ⟨hmem,
    searchPlayers_maxPrice_zero_vs_negative.2 _ (-1) 1 _ (by decide) hmem⟩

/-- C10: a numeric criterion set to `0` (`minOverall`, `maxAge`, `maxPrice`
or `minPotential`) is skipped by the JavaScript truthiness guard and the
search returns exactly what it returns with the field absent. -/
theorem searchPlayers_zero_numeric_criteria_noop :
    ∀ (store : List Player) (c : SearchCriteria) (limit : ℕ),
      searchPlayers store { c with minOverall := some 0 } limit
          = searchPlayers store { c with minOverall := none } limit ∧
        searchPlayers store { c with maxAge := some 0 } limit
          = searchPlayers store { c with maxAge := none } limit ∧
        searchPlayers store { c with maxPrice := some 0 } limit
          = searchPlayers store { c with maxPrice := none } limit ∧
        searchPlayers store { c with minPotential := some 0 } limit
          = searchPlayers store { c with minPotential := none } limit := by
  intro store c limit
  obtain ⟨pos, mo, ma, mp, mpo, na, lg, cb⟩ := c
  refine ⟨?_, ?_, ?_, ?_⟩ <;>
    · unfold searchPlayers
      rw [List.filter_congr (fun q _ => ?_)]
      simp [matchesCriteria]

end FC25
